import Mathlib

/-!
# Verification of the perses geometry engine (`perses/rjmc/geometry.py`)

A shallow embedding, in Lean 4, of the sequential internal-coordinate growth
engine of `perses/rjmc/geometry.py`, together with proofs of the behavioral
claims made about it.  Floating-point numerics are idealized over `ℝ`;
a `NaN` energy is embedded as `Option.none`; Python exceptions are embedded
as `Except` errors.
-/

open scoped Real

noncomputable section

/-! ## Vectors in ℝ³ (numpy 3-arrays) -/

/-- A Cartesian position / vector, the embedding of a numpy `[3]` float array. -/
structure V3 where
  x : ℝ
  y : ℝ
  z : ℝ

instance : Sub V3 := ⟨fun a b => ⟨a.x - b.x, a.y - b.y, a.z - b.z⟩⟩

instance : Add V3 := ⟨fun a b => ⟨a.x + b.x, a.y + b.y, a.z + b.z⟩⟩

instance : SMul ℝ V3 := ⟨fun c v => ⟨c * v.x, c * v.y, c * v.z⟩⟩

/-- Euclidean dot product (`np.dot`). -/
def V3.dot (a b : V3) : ℝ := a.x * b.x + a.y * b.y + a.z * b.z

/-- Euclidean norm (`np.linalg.norm`). -/
def V3.norm (a : V3) : ℝ := Real.sqrt (a.dot a)

/-- Cross product (`np.cross`). -/
def V3.cross (a b : V3) : V3 :=
  ⟨a.y * b.z - a.z * b.y, a.z * b.x - a.x * b.z, a.x * b.y - a.y * b.x⟩

/-- Unit vector in the direction of `a`. -/
def V3.normalize (a : V3) : V3 := (1 / a.norm) • a

/-! ## Coordinate Transform

`FFAllAngleGeometryEngine._cartesian_to_internal` and
`_internal_to_cartesian` strip units and delegate the geometry to
`perses.rjmc.coordinate_numba`, then return the absolute Jacobian determinant
computed from the internal coordinates (`geometry.py` lines 611-641).
-/

/-- Modelled from the spec: the numerical kernel
`perses.rjmc.coordinate_numba.cartesian_to_internal` is imported by
`geometry.py` but its source is not part of this repository.  Per the spec it
is the "standard local-frame internal-coordinate extraction (bond vector
length; angle between bond vector and the bond→angle-ref vector; dihedral
between the two half-planes defined by the four points)", with θ ∈ [0, π]
produced by an arccos and φ a signed dihedral angle. -/
def cartesian_to_internal_core (atom_position bond_position angle_position torsion_position : V3) :
    ℝ × ℝ × ℝ :=
  let u := atom_position - bond_position
  let v := angle_position - bond_position
  let w := torsion_position - angle_position
  let r := u.norm
  let theta := Real.arccos (V3.dot u v / (u.norm * v.norm))
  let plane1 := V3.cross u v
  let plane2 := V3.cross v w
  let phi0 := Real.arccos (V3.dot plane1 plane2 / (plane1.norm * plane2.norm))
  let phi := if V3.dot plane1 w ≤ 0 then -phi0 else phi0
  (r, theta, phi)

/-- Modelled from the spec: `coordinate_numba.internal_to_cartesian` (source
not in this repository) builds an orthonormal local frame from the three
reference points and places the new atom at the given (r, θ, φ) in that
frame. -/
def internal_to_cartesian_core (bond_position angle_position torsion_position : V3)
    (r theta phi : ℝ) : V3 :=
  let bc := V3.normalize (bond_position - angle_position)
  let n := V3.normalize (V3.cross (angle_position - torsion_position) bc)
  let m := V3.cross n bc
  bond_position + ((-(r * Real.cos theta)) • bc +
    (r * Real.sin theta * Real.cos phi) • m + (r * Real.sin theta * Real.sin phi) • n)

/-- `FFAllAngleGeometryEngine._cartesian_to_internal` (geometry.py:611-625):
returns the internal coordinates together with
`np.abs(internal_coords[0]**2*np.sin(internal_coords[1]))`. -/
def cartesian_to_internal (atom_position bond_position angle_position torsion_position : V3) :
    (ℝ × ℝ × ℝ) × ℝ :=
  let internal_coords :=
    cartesian_to_internal_core atom_position bond_position angle_position torsion_position
  (internal_coords, |internal_coords.1 ^ 2 * Real.sin internal_coords.2.1|)

/-- `FFAllAngleGeometryEngine._internal_to_cartesian` (geometry.py:627-641):
returns the Cartesian position together with `np.abs(r**2*np.sin(theta))`. -/
def internal_to_cartesian (bond_position angle_position torsion_position : V3)
    (r theta phi : ℝ) : V3 × ℝ :=
  (internal_to_cartesian_core bond_position angle_position torsion_position r theta phi,
    |r ^ 2 * Real.sin theta|)

/-- C1: For every valid input (reference positions pairwise distinct,
r ≥ 0, θ ∈ [0, π], φ ∈ [-π, π)), the absolute Jacobian determinant returned
by the Cartesian-to-internal transform and the one returned by the
internal-to-Cartesian transform both equal r² · sin θ, where for the
Cartesian-to-internal direction r and θ are the internal coordinates it
computes. -/
theorem jacobian_eq_r_sq_sin_theta
    (atom_position bond_position angle_position torsion_position : V3)
    (r theta phi : ℝ)
    (hd1 : atom_position ≠ bond_position) (hd2 : atom_position ≠ angle_position)
    (hd3 : atom_position ≠ torsion_position) (hd4 : bond_position ≠ angle_position)
    (hd5 : bond_position ≠ torsion_position) (hd6 : angle_position ≠ torsion_position)
    (hr : 0 ≤ r) (htheta0 : 0 ≤ theta) (hthetapi : theta ≤ π)
    (hphi1 : -π ≤ phi) (hphi2 : phi < π) :
    (cartesian_to_internal atom_position bond_position angle_position torsion_position).2 =
      (cartesian_to_internal atom_position bond_position angle_position torsion_position).1.1 ^ 2 *
        Real.sin
          (cartesian_to_internal atom_position bond_position angle_position torsion_position).1.2.1
      ∧
    (internal_to_cartesian bond_position angle_position torsion_position r theta phi).2 =
      r ^ 2 * Real.sin theta := by
  constructor
  · apply abs_of_nonneg
    apply mul_nonneg (sq_nonneg _)
    apply Real.sin_nonneg_of_mem_Icc
    constructor
    · exact Real.arccos_nonneg _
    · exact Real.arccos_le_pi _
  · exact abs_of_nonneg (mul_nonneg (sq_nonneg _) (Real.sin_nonneg_of_nonneg_of_le_pi htheta0 hthetapi))

/-- Witness for C1 at a concrete valid input. -/
theorem jacobian_eq_r_sq_sin_theta_witness :
    (cartesian_to_internal ⟨1, 0, 0⟩ ⟨0, 0, 0⟩ ⟨0, 1, 0⟩ ⟨0, 1, 1⟩).2 =
      (cartesian_to_internal ⟨1, 0, 0⟩ ⟨0, 0, 0⟩ ⟨0, 1, 0⟩ ⟨0, 1, 1⟩).1.1 ^ 2 *
        Real.sin (cartesian_to_internal ⟨1, 0, 0⟩ ⟨0, 0, 0⟩ ⟨0, 1, 0⟩ ⟨0, 1, 1⟩).1.2.1
      ∧
    (internal_to_cartesian ⟨0, 0, 0⟩ ⟨0, 1, 0⟩ ⟨0, 1, 1⟩ 1 1 0).2 = 1 ^ 2 * Real.sin 1 := by
  refine jacobian_eq_r_sq_sin_theta ⟨1, 0, 0⟩ ⟨0, 0, 0⟩ ⟨0, 1, 0⟩ ⟨0, 1, 1⟩ 1 1 0
    ?_ ?_ ?_ ?_ ?_ ?_ ?_ ?_ ?_ ?_ ?_ <;>
    first
      | (intro h; injection h; norm_num at *)
      | linarith [Real.pi_gt_three]

/-! ## Errors

Python exceptions raised by the engine.  `NoTorsionError` (geometry.py:2067)
is a distinguished exception class; `ValueError` and plain `Exception` are
builtin classes. -/

/-- The exceptions the engine can raise: the distinguished `NoTorsionError`
class, Python's `ValueError`, and a plain `Exception`. -/
inductive GeomError where
  | noTorsion (msg : String)
  | valueError (msg : String)
  | genericException (msg : String)
deriving DecidableEq, Repr

/-! ## Torsion probability mass function

`FFAllAngleGeometryEngine._torsion_log_probability_mass_function`
(geometry.py:740-810).  The per-division log Boltzmann weights
`logq[i] = -beta*potential_energy(xyzs[i])` are embedded as
`Option ℝ`-valued energies: `none` is a `NaN` energy evaluation, `some e` a
finite potential energy.  The source replaces NaN entries by `-inf`
(`logq[np.isnan(logq)] = -np.inf`); a `-∞` log weight is `⊥ : WithBot ℝ`,
and its exponential weight is `0`. -/

/-- `exp` extended to `-∞` log weights: `exp(-∞) = 0`. -/
def expW (w : WithBot ℝ) : ℝ := WithBot.recBotCoe 0 Real.exp w

/-- The log weight array after `logq[np.isnan(logq)] = -np.inf`:
entry `i` is `-beta*E i`, with a NaN energy replaced by `-∞`. -/
def torsion_logq (n : ℕ) (beta : ℝ) (E : Fin n → Option ℝ) (i : Fin n) : WithBot ℝ :=
  (E i).elim ⊥ (fun e => ((-beta * e : ℝ) : WithBot ℝ))

/-- `max(logq)` (over the `-∞`-extended array); the `0` default is only taken
when every entry is NaN, in which case the source has already raised. -/
def torsion_logq_max (n : ℕ) (beta : ℝ) (E : Fin n → Option ℝ) : ℝ :=
  (Finset.univ.sup (torsion_logq n beta E)).unbot' 0

/-- `q = np.exp(logq)` after the stabilizing shift `logq -= max(logq)`:
a NaN bin has weight `exp(-∞) = 0`. -/
def torsion_weight (n : ℕ) (beta : ℝ) (E : Fin n → Option ℝ) (i : Fin n) : ℝ :=
  (E i).elim 0 (fun e => Real.exp (-beta * e - torsion_logq_max n beta E))

/-- `Z = np.sum(q)`. -/
def torsion_Z (n : ℕ) (beta : ℝ) (E : Fin n → Option ℝ) : ℝ :=
  ∑ i, torsion_weight n beta E i

/-- The message of the exception raised when every bin is NaN
(geometry.py:788). -/
def allNaNMsg (n : ℕ) : String := s!"All {n} torsion energies in torsion PMF are NaN."

/-- `_torsion_log_probability_mass_function` (geometry.py:740-810), given the
per-division energy evaluations `E`: raise if every entry of `logq` is NaN
(`np.sum(np.isnan(logq)) == n_divisions`); otherwise treat NaN entries as
`-∞`, shift by `max(logq)`, exponentiate, and return
`logp_torsions = logq - np.log(Z)`. -/
def torsion_log_probability_mass_function (n : ℕ) (beta : ℝ) (E : Fin n → Option ℝ) :
    Except GeomError (Fin n → WithBot ℝ) :=
  if ∀ i, (E i).isNone = true then
    .error (.genericException (allNaNMsg n))
  else
    .ok (fun i => (E i).elim ⊥
      (fun e => ((-beta * e - torsion_logq_max n beta E - Real.log (torsion_Z n beta E) : ℝ) :
        WithBot ℝ)))

/-- C2: for every torsion energy landscape over the `n_divisions` bins in
which at least one bin's log weight is finite, the discretized torsion PMF
sums to 1 after normalization, with NaN bins assigned `-∞` log weight (zero
probability); if every bin is NaN the computation raises a fatal error
instead of returning a distribution. -/
theorem torsion_pmf_normalized (n : ℕ) (beta : ℝ) (E : Fin n → Option ℝ) :
    ((∀ i, E i = none) →
      torsion_log_probability_mass_function n beta E =
        .error (.genericException (allNaNMsg n)))
    ∧
    (∀ i₀ x, E i₀ = some x →
      ∃ logp, torsion_log_probability_mass_function n beta E = .ok logp
        ∧ (∑ i, expW (logp i)) = 1
        ∧ ∀ i, E i = none → logp i = ⊥) := by
  constructor
  · intro hall
    rw [torsion_log_probability_mass_function, if_pos]
    intro i
    rw [hall i]
    rfl
  · intro i₀ x hx
    have hnot : ¬ ∀ i, (E i).isNone = true := by
      intro h
      have := h i₀
      rw [hx] at this
      simp at this
    refine ⟨_, by rw [torsion_log_probability_mass_function, if_neg hnot], ?_, ?_⟩
    · -- Z is strictly positive: all weights are nonneg, bin i₀'s is positive.
      have hZpos : 0 < torsion_Z n beta E := by
        refine Finset.sum_pos' (fun i _ => ?_) ⟨i₀, Finset.mem_univ _, ?_⟩
        · cases hEi : E i <;> simp [torsion_weight, hEi, Real.exp_pos, le_of_lt]
        · simp [torsion_weight, hx, Real.exp_pos]
      have hsum : ∀ i : Fin n,
          expW ((E i).elim ⊥
            (fun e => ((-beta * e - torsion_logq_max n beta E - Real.log (torsion_Z n beta E) : ℝ) :
              WithBot ℝ))) = torsion_weight n beta E i / torsion_Z n beta E := by
        intro i
        cases hEi : E i with
        | none => simp [expW, torsion_weight, hEi]
        | some e =>
          simp only [hEi, Option.elim, expW, WithBot.recBotCoe_coe, torsion_weight]
          rw [sub_eq_add_neg (-beta * e - torsion_logq_max n beta E), Real.exp_add,
            Real.exp_neg, Real.exp_log hZpos]
          rw [div_eq_mul_inv]
      rw [Finset.sum_congr rfl (fun i _ => hsum i), ← Finset.sum_div]
      exact div_self (ne_of_gt hZpos)
    · intro i hi
      simp [hi]

/-- An example two-bin energy landscape with one finite bin and one NaN bin. -/
def exampleEnergies : Fin 2 → Option ℝ := fun i => if i = 0 then some 1 else none

/-- Witness for C2: the all-NaN landscape raises, and `exampleEnergies`
yields a normalized distribution. -/
theorem torsion_pmf_normalized_witness :
    (torsion_log_probability_mass_function 2 1 (fun _ => none) =
      .error (.genericException (allNaNMsg 2)))
    ∧
    (∃ logp, torsion_log_probability_mass_function 2 1 exampleEnergies = .ok logp
      ∧ (∑ i, expW (logp i)) = 1
      ∧ ∀ i, exampleEnergies i = none → logp i = ⊥) :=
  ⟨(torsion_pmf_normalized 2 1 (fun _ => none)).1 (fun _ => rfl),
    (torsion_pmf_normalized 2 1 exampleEnergies).2 0 1 rfl⟩

/-! ## Proposal Order Resolver

`ProposalOrderTools` (geometry.py:1840-2026).  Atoms are embedded as their
integer indices; the bonded graph of the parmed structure is a neighbor-list
function `nbrs`; the element of an atom is given by `atomicNumber`.
The `np.random` draws are embedded as an explicit tape of naturals consumed
left to right. -/

/-- The bonded-graph and element data of one side of a topology proposal
(the parmed structure loaded by `determine_proposal_order`). -/
structure TopologyModel where
  nbrs : ℕ → List ℕ
  atomicNumber : ℕ → ℕ

/-- A topological torsion `(atom1, atom2, atom3, atom4)` (a parmed `Dihedral`
with no type). -/
def Torsion := ℕ × ℕ × ℕ × ℕ

instance : DecidableEq Torsion := inferInstanceAs (DecidableEq (ℕ × ℕ × ℕ × ℕ))

/-- `torsion.atom1`. -/
def Torsion.atom1 (t : Torsion) : ℕ := t.1

/-- `torsion.atom2`. -/
def Torsion.atom2 (t : Torsion) : ℕ := t.2.1

/-- `torsion.atom3`. -/
def Torsion.atom3 (t : Torsion) : ℕ := t.2.2.1

/-- `torsion.atom4`. -/
def Torsion.atom4 (t : Torsion) : ℕ := t.2.2.2

/-- `ProposalOrderTools._get_topological_torsions` (geometry.py:1978-2026):
all chains `(new_atom, a2, a3, a4)` walking the bond graph from `new_atom`
such that `a2`, `a3`, `a4` already have positions and are distinct from the
atoms earlier in the chain. -/
def get_topological_torsions (nbrs : ℕ → List ℕ) (atoms_with_positions : List ℕ)
    (new_atom : ℕ) : List Torsion :=
  (nbrs new_atom).flatMap (fun a2 =>
    if a2 ∈ atoms_with_positions then
      (nbrs a2).flatMap (fun a3 =>
        if a3 ∈ atoms_with_positions ∧ a3 ∉ [new_atom, a2] then
          (nbrs a3).filterMap (fun a4 =>
            if a4 ∈ atoms_with_positions ∧ a4 ∉ [new_atom, a2, a3] then
              some (new_atom, a2, a3, a4)
            else none)
        else [])
    else [])

/-- The message of the `NoTorsionError` raised by `_choose_torsion`
(geometry.py:1973). -/
def noTorsionMsg : String := "No eligible torsions found for placing atom."

/-- `ProposalOrderTools._choose_torsion` (geometry.py:1954-1976): raise the
distinguished `NoTorsionError` when no topological torsion exists, else pick
the torsion at the uniformly drawn index `k` (`np.random.randint(0, len)`,
embedded as `k % len` so that every tape value is a legal draw) and return it
with `np.log(1.0/len)`. -/
def choose_torsion (nbrs : ℕ → List ℕ) (atoms_with_positions : List ℕ)
    (atom_for_proposal : ℕ) (k : ℕ) : Except GeomError (Torsion × ℝ) :=
  let eligible_torsions := get_topological_torsions nbrs atoms_with_positions atom_for_proposal
  if h : eligible_torsions.length = 0 then
    .error (.noTorsion noTorsionMsg)
  else
    .ok (eligible_torsions.get ⟨k % eligible_torsions.length,
          Nat.mod_lt _ (Nat.pos_of_ne_zero h)⟩,
      Real.log (1 / (eligible_torsions.length : ℝ)))

/-- `ProposalOrderTools._atoms_eligible_for_proposal` (geometry.py:1934-1952):
new atoms with at least one bond partner that already has a position. -/
def atoms_eligible_for_proposal (nbrs : ℕ → List ℕ) (new_atoms atoms_with_positions : List ℕ) :
    List ℕ :=
  new_atoms.filter (fun a => (nbrs a).any (fun b => decide (b ∈ atoms_with_positions)))

/-- The message of the exception raised when atoms remain but none is
eligible (geometry.py:1916). -/
def eligibleEmptyMsg : String :=
  "new_atoms has remaining atoms to place, but eligible_atoms is empty."

/-- The body of the `for atom in eligible_atoms` loop inside `add_atoms`
(geometry.py:1917-1922): choose a torsion for each eligible atom in turn,
recording it, removing the atom from `new_atoms` and appending it to
`atoms_with_positions`.  Returns the updated
`(new_atoms, atoms_with_positions, atoms_torsions, logp, tape)` state. -/
def place_eligible (nbrs : ℕ → List ℕ) :
    List ℕ → List ℕ → List ℕ → List (ℕ × Torsion) → ℝ → List ℕ →
    Except GeomError (List ℕ × List ℕ × List (ℕ × Torsion) × ℝ × List ℕ)
  | [], new_atoms, atoms_with_positions, atoms_torsions, logp, tape =>
      .ok (new_atoms, atoms_with_positions, atoms_torsions, logp, tape)
  | atom :: rest, new_atoms, atoms_with_positions, atoms_torsions, logp, tape =>
      match choose_torsion nbrs atoms_with_positions atom (tape.headD 0) with
      | .error e => .error e
      | .ok (chosen_torsion, logp_choice) =>
          place_eligible nbrs rest (new_atoms.erase atom)
            (atoms_with_positions ++ [atom])
            (atoms_torsions ++ [(atom, chosen_torsion)])
            (logp + logp_choice) tape.tail

/-- The `while(len(new_atoms))>0` loop of `add_atoms`
(geometry.py:1895-1924), with an explicit fuel bounding the number of loop
iterations (each source iteration places at least one atom, so
`new_atoms.length` fuel suffices): raise when atoms remain but none is
eligible, otherwise place every eligible atom and loop. -/
def add_atoms (nbrs : ℕ → List ℕ) :
    ℕ → List ℕ → List ℕ → List (ℕ × Torsion) → ℝ → List ℕ →
    Except GeomError (List ℕ × List (ℕ × Torsion) × ℝ × List ℕ)
  | 0, new_atoms, atoms_with_positions, atoms_torsions, logp, tape =>
      if new_atoms = [] then .ok (atoms_with_positions, atoms_torsions, logp, tape)
      else .error (.genericException "out of fuel")
  | fuel + 1, new_atoms, atoms_with_positions, atoms_torsions, logp, tape =>
      if new_atoms = [] then .ok (atoms_with_positions, atoms_torsions, logp, tape)
      else
        if atoms_eligible_for_proposal nbrs new_atoms atoms_with_positions = [] then
          .error (.genericException eligibleEmptyMsg)
        else
          match place_eligible nbrs
              (atoms_eligible_for_proposal nbrs new_atoms atoms_with_positions)
              new_atoms atoms_with_positions atoms_torsions logp tape with
          | .error e => .error e
          | .ok (new_atoms', atoms_with_positions', atoms_torsions', logp', tape') =>
              add_atoms nbrs fuel new_atoms' atoms_with_positions' atoms_torsions' logp' tape'

/-- `ProposalOrderTools.determine_proposal_order` (geometry.py:1858-1932)
after the direction dispatch has selected the relevant topology, its unique
atoms and its mapped atoms (`atoms_with_positions`): partition the unique
atoms into hydrogens and heavy atoms, then run `add_atoms` on the heavy atoms
and afterwards on the hydrogens, sharing the ordered torsion record and the
list of positioned atoms. -/
def determine_proposal_order (T : TopologyModel) (unique_atoms atoms_with_positions : List ℕ)
    (tape : List ℕ) : Except GeomError (List (ℕ × Torsion) × ℝ) :=
  let new_hydrogen_atoms := unique_atoms.filter (fun a => T.atomicNumber a == 1)
  let new_heavy_atoms := unique_atoms.filter (fun a => T.atomicNumber a != 1)
  match add_atoms T.nbrs new_heavy_atoms.length new_heavy_atoms atoms_with_positions [] 0 tape with
  | .error e => .error e
  | .ok (atoms_with_positions', atoms_torsions', logp', tape') =>
      match add_atoms T.nbrs new_hydrogen_atoms.length new_hydrogen_atoms
          atoms_with_positions' atoms_torsions' logp' tape' with
      | .error e => .error e
      | .ok (_, atoms_torsions'', logp'', _) => .ok (atoms_torsions'', logp'')

/-! ### Build-order invariants -/

/-- Validity of a build order relative to the atoms that already have
positions: each entry's torsion starts with the atom being placed, its three
reference atoms are all among the atoms positioned so far, and the atom
itself is positioned for the remainder of the order. -/
def orderOK (atoms_with_positions : List ℕ) : List (ℕ × Torsion) → Prop
  | [] => True
  | (atom, t) :: rest =>
      t.atom1 = atom ∧ t.atom2 ∈ atoms_with_positions ∧ t.atom3 ∈ atoms_with_positions ∧
        t.atom4 ∈ atoms_with_positions ∧ orderOK (atoms_with_positions ++ [atom]) rest

theorem orderOK_append (atoms_with_positions : List ℕ) (l₁ l₂ : List (ℕ × Torsion))
    (h₁ : orderOK atoms_with_positions l₁)
    (h₂ : orderOK (atoms_with_positions ++ l₁.map Prod.fst) l₂) :
    orderOK atoms_with_positions (l₁ ++ l₂) := by
  induction l₁ generalizing atoms_with_positions with
  | nil => simpa using h₂
  | cons e t ih =>
    obtain ⟨atom, tor⟩ := e
    obtain ⟨ha, h2, h3, h4, hrest⟩ := h₁
    refine ⟨ha, h2, h3, h4, ih _ hrest ?_⟩
    simpa [List.append_assoc] using h₂

theorem mem_get_topological_torsions {nbrs : ℕ → List ℕ} {wp : List ℕ} {a : ℕ} {t : Torsion}
    (h : t ∈ get_topological_torsions nbrs wp a) :
    t.atom1 = a ∧ t.atom2 ∈ wp ∧ t.atom3 ∈ wp ∧ t.atom4 ∈ wp := by
  simp only [get_topological_torsions, List.mem_flatMap] at h
  obtain ⟨a2, _, h2⟩ := h
  by_cases c2 : a2 ∈ wp
  · rw [if_pos c2] at h2
    simp only [List.mem_flatMap] at h2
    obtain ⟨a3, _, h3⟩ := h2
    by_cases c3 : a3 ∈ wp ∧ a3 ∉ [a, a2]
    · rw [if_pos c3] at h3
      simp only [List.mem_filterMap] at h3
      obtain ⟨a4, _, h4⟩ := h3
      by_cases c4 : a4 ∈ wp ∧ a4 ∉ [a, a2, a3]
      · rw [if_pos c4] at h4
        obtain rfl : (a, a2, a3, a4) = t := by simpa using h4
        exact ⟨rfl, c2, c3.1, c4.1⟩
      · rw [if_neg c4] at h4
        simp at h4
    · rw [if_neg c3] at h3
      simp at h3
  · rw [if_neg c2] at h2
    simp at h2

theorem choose_torsion_ok {nbrs : ℕ → List ℕ} {wp : List ℕ} {a k : ℕ} {t : Torsion} {lp : ℝ}
    (h : choose_torsion nbrs wp a k = .ok (t, lp)) :
    t ∈ get_topological_torsions nbrs wp a := by
  simp only [choose_torsion] at h
  split at h
  · exact absurd h (by simp)
  · have ht : (get_topological_torsions nbrs wp a).get _ = t :=
      congrArg Prod.fst (Except.ok.inj h)
    rw [← ht]
    exact List.get_mem _ _ _

theorem place_eligible_ok {nbrs : ℕ → List ℕ} :
    ∀ (todo new_atoms wp : List ℕ) (order : List (ℕ × Torsion)) (logp : ℝ) (tape : List ℕ)
      {na' wp' : List ℕ} {order' : List (ℕ × Torsion)} {lp' : ℝ} {tape' : List ℕ},
      place_eligible nbrs todo new_atoms wp order logp tape =
        .ok (na', wp', order', lp', tape') →
      ∃ Δ, order' = order ++ Δ ∧ wp' = wp ++ Δ.map Prod.fst ∧ orderOK wp Δ ∧
        (∀ e ∈ Δ, e.1 ∈ todo) ∧ (∀ x ∈ na', x ∈ new_atoms)
  | [], new_atoms, wp, order, logp, tape, na', wp', order', lp', tape', h => by
      obtain ⟨rfl, rfl, rfl, -, -⟩ :
          new_atoms = na' ∧ wp = wp' ∧ order = order' ∧ logp = lp' ∧ tape = tape' := by
        simpa [place_eligible] using h
      exact ⟨[], by simp, by simp, trivial, by simp, fun x hx => hx⟩
  | atom :: rest, new_atoms, wp, order, logp, tape, na', wp', order', lp', tape', h => by
      rw [place_eligible] at h
      cases hc : choose_torsion nbrs wp atom (tape.headD 0) with
      | error e => rw [hc] at h; exact absurd h (by simp)
      | ok pair =>
        obtain ⟨t, lp⟩ := pair
        rw [hc] at h
        obtain ⟨Δ', h1, h2, h3, h4, h5⟩ :=
          place_eligible_ok rest (new_atoms.erase atom) (wp ++ [atom])
            (order ++ [(atom, t)]) (logp + lp) tape.tail h
        obtain ⟨hat, hm2, hm3, hm4⟩ := mem_get_topological_torsions (choose_torsion_ok hc)
        refine ⟨(atom, t) :: Δ', by simp [h1], by simp [h2], ⟨hat, hm2, hm3, hm4, h3⟩, ?_, ?_⟩
        · intro e he
          rcases List.mem_cons.mp he with rfl | he'
          · exact List.mem_cons_self _ _
          · exact List.mem_cons_of_mem _ (h4 e he')
        · exact fun x hx => List.erase_subset _ _ (h5 x hx)

theorem add_atoms_ok {nbrs : ℕ → List ℕ} :
    ∀ (fuel : ℕ) (new_atoms wp : List ℕ) (order : List (ℕ × Torsion)) (logp : ℝ)
      (tape : List ℕ) {wp' : List ℕ} {order' : List (ℕ × Torsion)} {lp' : ℝ} {tape' : List ℕ},
      add_atoms nbrs fuel new_atoms wp order logp tape = .ok (wp', order', lp', tape') →
      ∃ Δ, order' = order ++ Δ ∧ wp' = wp ++ Δ.map Prod.fst ∧ orderOK wp Δ ∧
        ∀ e ∈ Δ, e.1 ∈ new_atoms
  | 0, new_atoms, wp, order, logp, tape, wp', order', lp', tape', h => by
      rw [add_atoms] at h
      split at h
      · obtain ⟨rfl, rfl, -, -⟩ : wp = wp' ∧ order = order' ∧ logp = lp' ∧ tape = tape' := by
          simpa using h
        exact ⟨[], by simp, by simp, trivial, by simp⟩
      · exact absurd h (by simp)
  | fuel + 1, new_atoms, wp, order, logp, tape, wp', order', lp', tape', h => by
      rw [add_atoms] at h
      split at h
      · obtain ⟨rfl, rfl, -, -⟩ : wp = wp' ∧ order = order' ∧ logp = lp' ∧ tape = tape' := by
          simpa using h
        exact ⟨[], by simp, by simp, trivial, by simp⟩
      · split at h
        · exact absurd h (by simp)
        · rename_i hne hel
          cases hp : place_eligible nbrs
              (atoms_eligible_for_proposal nbrs new_atoms wp) new_atoms wp order logp tape with
          | error e => rw [hp] at h; exact absurd h (by simp)
          | ok res =>
            obtain ⟨na₁, wp₁, order₁, lp₁, tape₁⟩ := res
            rw [hp] at h
            obtain ⟨Δ₁, e1, e2, e3, e4, e5⟩ :=
              place_eligible_ok (atoms_eligible_for_proposal nbrs new_atoms wp)
                new_atoms wp order logp tape hp
            obtain ⟨Δ₂, f1, f2, f3, f4⟩ :=
              add_atoms_ok fuel na₁ wp₁ order₁ lp₁ tape₁ h
            refine ⟨Δ₁ ++ Δ₂, ?_, ?_, ?_, ?_⟩
            · rw [f1, e1, List.append_assoc]
            · rw [f2, e2, List.map_append, List.append_assoc]
            · exact orderOK_append _ _ _ e3 (by rw [← e2]; exact f3)
            · intro e he
              rcases List.mem_append.mp he with h' | h'
              · exact List.filter_subset' _ (e4 e h')
              · exact e5 _ (f4 e h')

/-- C4: for every build order successfully returned by the Proposal Order
Resolver, every atom's chosen torsion consists of the atom itself as the
first element plus three reference atoms that are each either pre-existing
(mapped) atoms or new atoms appearing strictly earlier in the returned order
(this is `orderOK`), and every heavy (non-hydrogen) atom appears before
every hydrogen atom. -/
theorem determine_proposal_order_valid (T : TopologyModel)
    (unique_atoms atoms_with_positions tape : List ℕ)
    (order : List (ℕ × Torsion)) (logp : ℝ)
    (h : determine_proposal_order T unique_atoms atoms_with_positions tape = .ok (order, logp)) :
    orderOK atoms_with_positions order ∧
    ∀ i j (hi : i < order.length) (hj : j < order.length),
      T.atomicNumber (order.get ⟨i, hi⟩).1 ≠ 1 → T.atomicNumber (order.get ⟨j, hj⟩).1 = 1 →
        i < j := by
  rw [determine_proposal_order] at h
  cases h1 : add_atoms T.nbrs (unique_atoms.filter (fun a => T.atomicNumber a != 1)).length
      (unique_atoms.filter (fun a => T.atomicNumber a != 1)) atoms_with_positions [] 0 tape with
  | error e => simp only [h1] at h; exact absurd h (by simp)
  | ok res1 =>
    obtain ⟨wp₁, order₁, lp₁, tape₁⟩ := res1
    simp only [h1] at h
    cases h2 : add_atoms T.nbrs (unique_atoms.filter (fun a => T.atomicNumber a == 1)).length
        (unique_atoms.filter (fun a => T.atomicNumber a == 1)) wp₁ order₁ lp₁ tape₁ with
    | error e => simp only [h2] at h; exact absurd h (by simp)
    | ok res2 =>
      obtain ⟨wp₂, order₂, lp₂, tape₂⟩ := res2
      simp only [h2] at h
      obtain ⟨rfl, -⟩ : order₂ = order ∧ lp₂ = logp := by simpa using h
      obtain ⟨Δh, a1, a2, a3, a4⟩ :=
        add_atoms_ok _ _ _ _ _ _ h1
      obtain ⟨Δy, b1, b2, b3, b4⟩ :=
        add_atoms_ok _ _ _ _ _ _ h2
      simp only [List.nil_append] at a1
      rw [a1] at b1
      subst b1
      constructor
      · exact orderOK_append _ _ _ a3 (by rw [← a2]; exact b3)
      · have hheavy : ∀ e ∈ Δh, T.atomicNumber e.1 ≠ 1 := by
          intro e he
          have := a4 e he
          simp only [List.mem_filter] at this
          simpa using this.2
        have hhyd : ∀ e ∈ Δy, T.atomicNumber e.1 = 1 := by
          intro e he
          have := b4 e he
          simp only [List.mem_filter] at this
          simpa using this.2
        intro i j hi hj hne heq
        have hilt : i < Δh.length := by
          by_contra hji
          push_neg at hji
          have : (Δh ++ Δy).get ⟨i, hi⟩ ∈ Δy := by
            rw [List.get_eq_getElem, List.getElem_append_right hji]
            exact List.getElem_mem _
          exact hne (hhyd _ this)
        have hjge : Δh.length ≤ j := by
          by_contra hji
          push_neg at hji
          have : (Δh ++ Δy).get ⟨j, hj⟩ ∈ Δh := by
            rw [List.get_eq_getElem, List.getElem_append_left hji]
            exact List.getElem_mem _
          exact hheavy _ this heq
        omega

/-- An example bonded graph: a chain 0 - 1 - 2 - 3 of carbon atoms. -/
def exampleTopology : TopologyModel :=
  ⟨fun a => if a = 0 then [1] else if a = 1 then [0, 2] else
      if a = 2 then [1, 3] else if a = 3 then [2] else [],
    fun _ => 6⟩

/-- Witness for C4: growing atom 0 of the example chain onto the positioned
atoms 1, 2, 3 succeeds and the returned order satisfies the invariants. -/
theorem determine_proposal_order_valid_witness :
    orderOK [1, 2, 3] [(0, ((0, 1, 2, 3) : Torsion))] ∧
    ∀ i j (hi : i < [(0, ((0, 1, 2, 3) : Torsion))].length)
      (hj : j < [(0, ((0, 1, 2, 3) : Torsion))].length),
      exampleTopology.atomicNumber ([(0, ((0, 1, 2, 3) : Torsion))].get ⟨i, hi⟩).1 ≠ 1 →
      exampleTopology.atomicNumber ([(0, ((0, 1, 2, 3) : Torsion))].get ⟨j, hj⟩).1 = 1 →
        i < j :=
  determine_proposal_order_valid exampleTopology [0] [1, 2, 3] [0]
    [(0, ((0, 1, 2, 3) : Torsion))] (0 + Real.log (1 / ((1 : ℕ) : ℝ))) rfl

/-- C3: for every call of the torsion-choice step on an atom, if the set of
candidate topological torsions is empty the distinguished `NoTorsionError`
is raised; otherwise every candidate index is a possible outcome (the tape
value `j` selects candidate `j`) and the returned log probability equals
`-ln(number of candidates)`. -/
theorem choose_torsion_uniform (nbrs : ℕ → List ℕ) (atoms_with_positions : List ℕ)
    (atom k : ℕ) :
    (get_topological_torsions nbrs atoms_with_positions atom = [] →
      choose_torsion nbrs atoms_with_positions atom k = .error (.noTorsion noTorsionMsg))
    ∧
    (∀ j (hj : j < (get_topological_torsions nbrs atoms_with_positions atom).length),
      choose_torsion nbrs atoms_with_positions atom j =
        .ok ((get_topological_torsions nbrs atoms_with_positions atom).get ⟨j, hj⟩,
          -Real.log ((get_topological_torsions nbrs atoms_with_positions atom).length : ℝ))) := by
  constructor
  · intro hnil
    rw [choose_torsion, dif_pos (by rw [hnil]; rfl)]
  · intro j hj
    rw [choose_torsion, dif_neg (by omega)]
    congr 1
    refine Prod.ext ?_ ?_
    · simp [Nat.mod_eq_of_lt hj]
    · simp [one_div, Real.log_inv]

/-- Witness for C3: an atom with no bonds raises `NoTorsionError`; atom 0 of
the example chain has exactly one candidate, chosen with log probability
`-ln 1`. -/
theorem choose_torsion_uniform_witness :
    choose_torsion (fun _ => []) [1, 2, 3] 0 0 = .error (.noTorsion noTorsionMsg)
    ∧ choose_torsion exampleTopology.nbrs [1, 2, 3] 0 0 =
        .ok ((get_topological_torsions exampleTopology.nbrs [1, 2, 3] 0).get ⟨0, by decide⟩,
          -Real.log ((get_topological_torsions exampleTopology.nbrs [1, 2, 3] 0).length : ℝ)) :=
  ⟨(choose_torsion_uniform (fun _ => []) [1, 2, 3] 0 0).1 rfl,
    (choose_torsion_uniform exampleTopology.nbrs [1, 2, 3] 0 0).2 0 (by decide)⟩

/-- C8: when unique atoms remain to be placed but no remaining atom has a
bonded neighbor that already holds a position, the Proposal Order Resolver
raises the fatal "eligible_atoms is empty" exception rather than skipping
the atoms or returning a partial order. -/
theorem disconnected_addition_raises (T : TopologyModel)
    (unique_atoms atoms_with_positions tape : List ℕ)
    (hne : unique_atoms ≠ [])
    (hno : ∀ a ∈ unique_atoms, ∀ b ∈ T.nbrs a, b ∉ atoms_with_positions) :
    determine_proposal_order T unique_atoms atoms_with_positions tape =
      .error (.genericException eligibleEmptyMsg) := by
  have heligible : ∀ s : List ℕ, (∀ a ∈ s, a ∈ unique_atoms) →
      atoms_eligible_for_proposal T.nbrs s atoms_with_positions = [] := by
    intro s hs
    rw [atoms_eligible_for_proposal, List.filter_eq_nil_iff]
    intro a ha
    simp only [List.any_eq_true, decide_eq_true_eq]
    push_neg
    exact fun b hb => hno a (hs a ha) b hb
  have hstep : ∀ (x : ℕ) (t : List ℕ) (fuel : ℕ) (order : List (ℕ × Torsion)) (logp : ℝ)
      (tp : List ℕ), (∀ a ∈ x :: t, a ∈ unique_atoms) →
      add_atoms T.nbrs (fuel + 1) (x :: t) atoms_with_positions order logp tp =
        .error (.genericException eligibleEmptyMsg) := by
    intro x t fuel order logp tp hsub
    rw [add_atoms, if_neg (by simp), heligible _ hsub, if_pos rfl]
  cases hh : unique_atoms.filter (fun a => T.atomicNumber a != 1) with
  | cons x t =>
    have hkey : add_atoms T.nbrs (unique_atoms.filter (fun a => T.atomicNumber a != 1)).length
        (unique_atoms.filter (fun a => T.atomicNumber a != 1)) atoms_with_positions [] 0 tape =
        .error (.genericException eligibleEmptyMsg) := by
      rw [hh, List.length_cons]
      exact hstep x t t.length [] 0 tape (fun a ha => List.filter_subset' _ (hh ▸ ha))
    simp only [determine_proposal_order, hkey]
  | nil =>
    have hhyd : ∃ y u, unique_atoms.filter (fun a => T.atomicNumber a == 1) = y :: u := by
      obtain ⟨a, ha⟩ := List.exists_mem_of_ne_nil _ hne
      have : a ∈ unique_atoms.filter (fun b => T.atomicNumber b == 1) := by
        rw [List.mem_filter]
        refine ⟨ha, ?_⟩
        by_contra hb
        have : a ∈ unique_atoms.filter (fun b => T.atomicNumber b != 1) := by
          rw [List.mem_filter]
          exact ⟨ha, by simpa using hb⟩
        rw [hh] at this
        simp at this
      cases hcase : unique_atoms.filter (fun b => T.atomicNumber b == 1) with
      | nil => rw [hcase] at this; simp at this
      | cons y u => exact ⟨y, u, rfl⟩
    obtain ⟨y, u, hyu⟩ := hhyd
    have hfirst : add_atoms T.nbrs (unique_atoms.filter (fun a => T.atomicNumber a != 1)).length
        (unique_atoms.filter (fun a => T.atomicNumber a != 1)) atoms_with_positions [] 0 tape =
        .ok (atoms_with_positions, [], 0, tape) := by
      rw [hh]
      rfl
    have hkey : add_atoms T.nbrs (unique_atoms.filter (fun a => T.atomicNumber a == 1)).length
        (unique_atoms.filter (fun a => T.atomicNumber a == 1)) atoms_with_positions [] 0 tape =
        .error (.genericException eligibleEmptyMsg) := by
      rw [hyu, List.length_cons]
      exact hstep y u u.length [] 0 tape (fun a ha => List.filter_subset' _ (hyu ▸ ha))
    simp only [determine_proposal_order, hfirst, hkey]

/-- An example graph in which atom 0 has no bonds at all. -/
def exampleIsolated : TopologyModel := ⟨fun _ => [], fun _ => 6⟩

/-- Witness for C8: adding the isolated atom 0 onto positioned atom 1
raises. -/
theorem disconnected_addition_raises_witness :
    determine_proposal_order exampleIsolated [0] [1] [] =
      .error (.genericException eligibleEmptyMsg) :=
  disconnected_addition_raises exampleIsolated [0] [1] [] (by decide) (by decide)

/-! ## Staged Energy Model

`GeometrySystemGenerator._calculate_growth_idx` (geometry.py:1679-1703) and
`GeometrySystemGeneratorFast.set_growth_parameter_index`
(geometry.py:1778-1823).  The growth system keeps `HarmonicBondForce`,
`HarmonicAngleForce`, `PeriodicTorsionForce` and (with sterics) a
`NonbondedForce`; each call of `set_growth_parameter_index` re-reads every
term's parameters from the reference system and multiplies the term's
coefficient(s) by `0.0` exactly when the current growth parameter is below
the term's growth index. -/

/-- `GeometrySystemGenerator._calculate_growth_idx` (geometry.py:1679-1703):
intersect the particle indices of a force term with the growth (new-atom)
indices; `0` when the intersection is empty, else the maximum of
`growth_indices.index(atom_idx)+1` over the intersection. -/
def calculate_growth_idx (particle_indices growth_indices : List ℕ) : ℕ :=
  let new_atoms_in_force := particle_indices.filter (fun p => decide (p ∈ growth_indices))
  if new_atoms_in_force = [] then 0
  else (new_atoms_in_force.map (fun p => growth_indices.indexOf p + 1)).foldl max 0

/-- The growth index as the spec words it: the maximum over the term's atom
indices of the 1-based build-order rank for new atoms and `0` for
pre-existing atoms. -/
def growth_idx_spec (particle_indices growth_indices : List ℕ) : ℕ :=
  (particle_indices.map
    (fun p => if p ∈ growth_indices then growth_indices.indexOf p + 1 else 0)).foldl max 0

theorem foldl_max_init : ∀ (l : List ℕ) (a : ℕ), l.foldl max a = max a (l.foldl max 0)
  | [], a => by simp
  | x :: t, a => by
      simp only [List.foldl_cons]
      rw [foldl_max_init t (max a x), foldl_max_init t (max 0 x)]
      omega

theorem filter_foldl_max_eq (growth_indices : List ℕ) : ∀ particle_indices : List ℕ,
    ((particle_indices.filter (fun p => decide (p ∈ growth_indices))).map
      (fun p => growth_indices.indexOf p + 1)).foldl max 0 =
    (particle_indices.map
      (fun p => if p ∈ growth_indices then growth_indices.indexOf p + 1 else 0)).foldl max 0
  | [] => rfl
  | p :: t => by
    by_cases hp : p ∈ growth_indices
    · rw [List.filter_cons_of_pos (by simpa using hp), List.map_cons, List.foldl_cons,
        List.map_cons, List.foldl_cons, if_pos hp, foldl_max_init, foldl_max_init,
        filter_foldl_max_eq growth_indices t]
      conv_rhs => rw [foldl_max_init]
      omega
    · rw [List.filter_cons_of_neg (by simpa using hp), List.map_cons, List.foldl_cons,
        if_neg hp, foldl_max_init _ (max 0 0), filter_foldl_max_eq growth_indices t]
      omega

theorem calculate_growth_idx_eq_spec (particle_indices growth_indices : List ℕ) :
    calculate_growth_idx particle_indices growth_indices =
      growth_idx_spec particle_indices growth_indices := by
  have hfold : calculate_growth_idx particle_indices growth_indices =
      ((particle_indices.filter (fun p => decide (p ∈ growth_indices))).map
        (fun p => growth_indices.indexOf p + 1)).foldl max 0 := by
    rw [calculate_growth_idx]
    split
    · rename_i hnil
      rw [hnil]
      rfl
    · rfl
  rw [hfold, growth_idx_spec, filter_foldl_max_eq]

/-- One `HarmonicBondForce` term (`getBondParameters`:
`[particle1, particle2, length, k]`). -/
structure BondParams where
  p1 : ℕ
  p2 : ℕ
  length : ℝ
  K : ℝ

/-- One `HarmonicAngleForce` term (`getAngleParameters`:
`[particle1, particle2, particle3, angle, k]`). -/
structure AngleParams where
  p1 : ℕ
  p2 : ℕ
  p3 : ℕ
  angle : ℝ
  K : ℝ

/-- One `PeriodicTorsionForce` term (`getTorsionParameters`:
`[p1, p2, p3, p4, periodicity, phase, k]`). -/
structure TorsionParams where
  p1 : ℕ
  p2 : ℕ
  p3 : ℕ
  p4 : ℕ
  periodicity : ℝ
  phase : ℝ
  k : ℝ

/-- One `NonbondedForce` particle (`getParticleParameters`:
`[charge, sigma, epsilon]`); its particle index is its list position. -/
structure ParticleParams where
  charge : ℝ
  sigma : ℝ
  epsilon : ℝ

/-- One `NonbondedForce` exception (`getExceptionParameters`:
`[p1, p2, chargeprod, sigma, epsilon]`). -/
structure ExceptionParams where
  p1 : ℕ
  p2 : ℕ
  chargeprod : ℝ
  sigma : ℝ
  epsilon : ℝ

/-- The force terms of the growth system (= those of the reference system
after removal of forces other than bond/angle/torsion/nonbonded). -/
structure GrowthSystem where
  bonds : List BondParams
  angles : List AngleParams
  torsions : List TorsionParams
  particles : List ParticleParams
  exceptions : List ExceptionParams

/-- `GeometrySystemGeneratorFast.set_growth_parameter_index`
(geometry.py:1778-1823): for every term of every kept force, re-read the
parameters from the reference system, multiply the coefficient(s) by `0.0`
when `growth_index < this_growth_index`, and write them into the growth
system. -/
def set_growth_parameter_index (growth_index : ℕ) (growth_indices : List ℕ)
    (reference : GrowthSystem) : GrowthSystem :=
  { bonds := reference.bonds.map (fun b =>
      if growth_index < calculate_growth_idx [b.p1, b.p2] growth_indices then
        { b with K := b.K * 0 } else b),
    angles := reference.angles.map (fun a =>
      if growth_index < calculate_growth_idx [a.p1, a.p2, a.p3] growth_indices then
        { a with K := a.K * 0 } else a),
    torsions := reference.torsions.map (fun t =>
      if growth_index < calculate_growth_idx [t.p1, t.p2, t.p3, t.p4] growth_indices then
        { t with k := t.k * 0 } else t),
    particles := reference.particles.mapIdx (fun i p =>
      if growth_index < calculate_growth_idx [i] growth_indices then
        { p with charge := p.charge * 0, epsilon := p.epsilon * 0 } else p),
    exceptions := reference.exceptions.map (fun e =>
      if growth_index < calculate_growth_idx [e.p1, e.p2] growth_indices then
        { e with chargeprod := e.chargeprod * 0, epsilon := e.epsilon * 0 } else e) }

/-- C5: after `set_growth_parameter_index(g)`, every force term whose growth
index exceeds `g` has its coefficient(s) zeroed and every term with growth
index at most `g` carries exactly its reference-system parameters; the
growth index is the max over the term's atoms of the 1-based build-order
rank for new atoms and 0 for pre-existing atoms, so terms touching only
pre-existing atoms are always active. -/
theorem set_growth_parameter_index_spec (g : ℕ) (growth_indices : List ℕ)
    (reference : GrowthSystem) :
    (∀ (i : ℕ) (b : BondParams), reference.bonds[i]? = some b →
      ∃ b', (set_growth_parameter_index g growth_indices reference).bonds[i]? = some b' ∧
        (g < calculate_growth_idx [b.p1, b.p2] growth_indices → b'.K = 0) ∧
        (calculate_growth_idx [b.p1, b.p2] growth_indices ≤ g → b' = b) ∧
        ((b.p1 ∉ growth_indices ∧ b.p2 ∉ growth_indices) → b' = b))
    ∧
    (∀ (i : ℕ) (a : AngleParams), reference.angles[i]? = some a →
      ∃ a', (set_growth_parameter_index g growth_indices reference).angles[i]? = some a' ∧
        (g < calculate_growth_idx [a.p1, a.p2, a.p3] growth_indices → a'.K = 0) ∧
        (calculate_growth_idx [a.p1, a.p2, a.p3] growth_indices ≤ g → a' = a) ∧
        ((a.p1 ∉ growth_indices ∧ a.p2 ∉ growth_indices ∧ a.p3 ∉ growth_indices) → a' = a))
    ∧
    (∀ (i : ℕ) (t : TorsionParams), reference.torsions[i]? = some t →
      ∃ t', (set_growth_parameter_index g growth_indices reference).torsions[i]? = some t' ∧
        (g < calculate_growth_idx [t.p1, t.p2, t.p3, t.p4] growth_indices → t'.k = 0) ∧
        (calculate_growth_idx [t.p1, t.p2, t.p3, t.p4] growth_indices ≤ g → t' = t) ∧
        ((t.p1 ∉ growth_indices ∧ t.p2 ∉ growth_indices ∧ t.p3 ∉ growth_indices ∧
            t.p4 ∉ growth_indices) → t' = t))
    ∧
    (∀ (i : ℕ) (p : ParticleParams), reference.particles[i]? = some p →
      ∃ p', (set_growth_parameter_index g growth_indices reference).particles[i]? = some p' ∧
        (g < calculate_growth_idx [i] growth_indices → p'.charge = 0 ∧ p'.epsilon = 0) ∧
        (calculate_growth_idx [i] growth_indices ≤ g → p' = p) ∧
        (i ∉ growth_indices → p' = p))
    ∧
    (∀ (i : ℕ) (e : ExceptionParams), reference.exceptions[i]? = some e →
      ∃ e', (set_growth_parameter_index g growth_indices reference).exceptions[i]? = some e' ∧
        (g < calculate_growth_idx [e.p1, e.p2] growth_indices → e'.chargeprod = 0 ∧
          e'.epsilon = 0) ∧
        (calculate_growth_idx [e.p1, e.p2] growth_indices ≤ g → e' = e) ∧
        ((e.p1 ∉ growth_indices ∧ e.p2 ∉ growth_indices) → e' = e))
    ∧
    (∀ particle_indices, calculate_growth_idx particle_indices growth_indices =
      growth_idx_spec particle_indices growth_indices) := by
  have hzero : ∀ ps : List ℕ, (∀ p ∈ ps, p ∉ growth_indices) →
      calculate_growth_idx ps growth_indices = 0 := by
    intro ps hps
    rw [calculate_growth_idx]
    have : ps.filter (fun p => decide (p ∈ growth_indices)) = [] := by
      rw [List.filter_eq_nil_iff]
      intro p hp
      simpa using hps p hp
    rw [if_pos this]
  refine ⟨?_, ?_, ?_, ?_, ?_, fun ps => calculate_growth_idx_eq_spec ps growth_indices⟩
  · intro i b hb
    refine ⟨if g < calculate_growth_idx [b.p1, b.p2] growth_indices then
        { b with K := b.K * 0 } else b,
      by simp [set_growth_parameter_index, hb], ?_, ?_, ?_⟩
    · intro hlt
      rw [if_pos hlt]
      simp
    · intro hle
      rw [if_neg (by omega)]
    · intro hpre
      rw [if_neg (by rw [hzero _ (by simp [hpre.1, hpre.2])]; omega)]
  · intro i a ha
    refine ⟨if g < calculate_growth_idx [a.p1, a.p2, a.p3] growth_indices then
        { a with K := a.K * 0 } else a,
      by simp [set_growth_parameter_index, ha], ?_, ?_, ?_⟩
    · intro hlt
      rw [if_pos hlt]
      simp
    · intro hle
      rw [if_neg (by omega)]
    · intro hpre
      rw [if_neg (by rw [hzero _ (by simp [hpre.1, hpre.2.1, hpre.2.2])]; omega)]
  · intro i t ht
    refine ⟨if g < calculate_growth_idx [t.p1, t.p2, t.p3, t.p4] growth_indices then
        { t with k := t.k * 0 } else t,
      by simp [set_growth_parameter_index, ht], ?_, ?_, ?_⟩
    · intro hlt
      rw [if_pos hlt]
      simp
    · intro hle
      rw [if_neg (by omega)]
    · intro hpre
      rw [if_neg (by
        rw [hzero _ (by simp [hpre.1, hpre.2.1, hpre.2.2.1, hpre.2.2.2])]; omega)]
  · intro i p hp
    refine ⟨if g < calculate_growth_idx [i] growth_indices then
        { p with charge := p.charge * 0, epsilon := p.epsilon * 0 } else p,
      by simp [set_growth_parameter_index, hp], ?_, ?_, ?_⟩
    · intro hlt
      rw [if_pos hlt]
      simp
    · intro hle
      rw [if_neg (by omega)]
    · intro hpre
      rw [if_neg (by rw [hzero _ (by simp [hpre])]; omega)]
  · intro i e he
    refine ⟨if g < calculate_growth_idx [e.p1, e.p2] growth_indices then
        { e with chargeprod := e.chargeprod * 0, epsilon := e.epsilon * 0 } else e,
      by simp [set_growth_parameter_index, he], ?_, ?_, ?_⟩
    · intro hlt
      rw [if_pos hlt]
      simp
    · intro hle
      rw [if_neg (by omega)]
    · intro hpre
      rw [if_neg (by rw [hzero _ (by simp [hpre.1, hpre.2])]; omega)]

/-- A reference growth system with one bond `0-4`, one angle `4-0-1`, one
torsion `3-2-1-0`, two nonbonded particles and one exception, where atom 0
is the single new atom. -/
def exampleSystem : GrowthSystem :=
  { bonds := [⟨0, 4, 1, 5⟩],
    angles := [⟨4, 0, 1, 2, 7⟩],
    torsions := [⟨3, 2, 1, 0, 1, 0, 3⟩],
    particles := [⟨1, 1, 1⟩, ⟨2, 1, 1⟩],
    exceptions := [⟨1, 2, 1, 1, 1⟩] }

/-- Witness for C5 on `exampleSystem` with growth list `[0]` and `g = 0`:
the bond `0-4` (growth index 1 > 0) is zeroed, while particle 1
(pre-existing) keeps its reference parameters. -/
theorem set_growth_parameter_index_spec_witness :
    (∃ b', (set_growth_parameter_index 0 [0] exampleSystem).bonds[0]? = some b' ∧
      (0 < calculate_growth_idx [(0 : ℕ), 4] [0] → b'.K = 0) ∧
      (calculate_growth_idx [(0 : ℕ), 4] [0] ≤ 0 → b' = ⟨0, 4, 1, 5⟩) ∧
      (((0 : ℕ) ∉ ([0] : List ℕ) ∧ (4 : ℕ) ∉ ([0] : List ℕ)) → b' = ⟨0, 4, 1, 5⟩))
    ∧
    (∃ p', (set_growth_parameter_index 0 [0] exampleSystem).particles[1]? = some p' ∧
      (0 < calculate_growth_idx [1] [0] → p'.charge = 0 ∧ p'.epsilon = 0) ∧
      (calculate_growth_idx [1] [0] ≤ 0 → p' = ⟨2, 1, 1⟩) ∧
      ((1 : ℕ) ∉ ([0] : List ℕ) → p' = ⟨2, 1, 1⟩)) :=
  ⟨(set_growth_parameter_index_spec 0 [0] exampleSystem).1 0 ⟨0, 4, 1, 5⟩ rfl,
    (set_growth_parameter_index_spec 0 [0] exampleSystem).2.2.2.1 1 ⟨2, 1, 1⟩ rfl⟩

/-! ## Position arrays: `_copy_positions`, `propose` and the growth loop

`FFAllAngleGeometryEngine._copy_positions` (geometry.py:418-444) builds a
fresh array filled by `np.random.random` (one value per coordinate, drawn
from `[0, 1)`), then overwrites each mapped atom's slot with the input
position of its image under `new_to_old_atom_map`.  The position array is
embedded as a function `ℕ → V3` from atom index to position; the
`np.random.random` array is the function `rand`.  `propose`
(geometry.py:97-123) either returns this copy with log probability `0.0`
(no unique new atoms) or runs the `_logp_propose` growth loop
(geometry.py:264-326), which writes `new_positions[atom.idx] = xyz` exactly
once per atom of the proposal order; the per-atom placement
`xyz = internal_to_cartesian(...)` computed from the already-held positions
(and the sampled internal coordinates) is abstracted as the oracle
`place`. -/

/-- `FFAllAngleGeometryEngine._copy_positions` (geometry.py:418-444):
`new_positions` starts as the `np.random.random` array and the loop
overwrites the slot of every mapped atom (`new_to_old_atom_map` key) with
`current_positions[old_index]`. -/
def copy_positions (new_to_old_atom_map : List (ℕ × ℕ)) (rand current_positions : ℕ → V3) :
    ℕ → V3 :=
  new_to_old_atom_map.foldl
    (fun new_positions p => Function.update new_positions p.1 (current_positions p.2)) rand

/-- The `for atom, torsion in atom_proposal_order.items()` loop of
`_logp_propose` (geometry.py:264-326), restricted to its effect on the
position array: each atom of the order receives
`new_positions[atom.idx] = xyz`, where `xyz` is computed by `place` from
the positions held so far. -/
def grow_positions (place : (ℕ → V3) → ℕ → V3) (atom_proposal_order : List ℕ)
    (new_positions : ℕ → V3) : ℕ → V3 :=
  atom_proposal_order.foldl (fun pos atom => Function.update pos atom (place pos atom)) new_positions

/-- `FFAllAngleGeometryEngine.propose` (geometry.py:97-123): with no unique
new atoms the mapped positions are copied and the log probability is exactly
`0.0`; otherwise `_logp_propose` copies the mapped positions and runs the
growth loop over the proposal order, returning its accumulated log
probability. -/
def propose (place : (ℕ → V3) → ℕ → V3) (unique_new_atoms atom_proposal_order : List ℕ)
    (new_to_old_atom_map : List (ℕ × ℕ)) (rand current_positions : ℕ → V3)
    (logp_growth : ℝ) : (ℕ → V3) × ℝ :=
  if unique_new_atoms = [] then
    (copy_positions new_to_old_atom_map rand current_positions, 0)
  else
    (grow_positions place atom_proposal_order
        (copy_positions new_to_old_atom_map rand current_positions),
      logp_growth)

theorem copy_positions_cons (p : ℕ × ℕ) (t : List (ℕ × ℕ)) (rand current_positions : ℕ → V3) :
    copy_positions (p :: t) rand current_positions =
      copy_positions t (Function.update rand p.1 (current_positions p.2)) current_positions := rfl

theorem grow_positions_cons (place : (ℕ → V3) → ℕ → V3) (a : ℕ) (t : List ℕ)
    (new_positions : ℕ → V3) :
    grow_positions place (a :: t) new_positions =
      grow_positions place t (Function.update new_positions a (place new_positions a)) := rfl

theorem copy_positions_not_mem (new_to_old_atom_map : List (ℕ × ℕ))
    (rand current_positions : ℕ → V3) (i : ℕ)
    (hi : i ∉ new_to_old_atom_map.map Prod.fst) :
    copy_positions new_to_old_atom_map rand current_positions i = rand i := by
  induction new_to_old_atom_map generalizing rand with
  | nil => rfl
  | cons p t ih =>
    simp only [List.map_cons, List.mem_cons, not_or] at hi
    rw [copy_positions_cons, ih _ hi.2, Function.update_noteq hi.1]

theorem copy_positions_mem (new_to_old_atom_map : List (ℕ × ℕ))
    (rand current_positions : ℕ → V3) (i o : ℕ)
    (hnd : (new_to_old_atom_map.map Prod.fst).Nodup)
    (hio : (i, o) ∈ new_to_old_atom_map) :
    copy_positions new_to_old_atom_map rand current_positions i = current_positions o := by
  induction new_to_old_atom_map generalizing rand with
  | nil => simp at hio
  | cons p t ih =>
    simp only [List.map_cons, List.nodup_cons] at hnd
    rw [copy_positions_cons]
    rcases List.mem_cons.mp hio with heq | hmem
    · obtain rfl : p = (i, o) := heq.symm
      rw [copy_positions_not_mem _ _ _ _ (by simpa using hnd.1)]
      simp
    · exact ih _ hnd.2 hmem

theorem grow_positions_not_mem (place : (ℕ → V3) → ℕ → V3) (atom_proposal_order : List ℕ)
    (new_positions : ℕ → V3) (i : ℕ) (hi : i ∉ atom_proposal_order) :
    grow_positions place atom_proposal_order new_positions i = new_positions i := by
  induction atom_proposal_order generalizing new_positions with
  | nil => rfl
  | cons a t ih =>
    simp only [List.mem_cons, not_or] at hi
    rw [grow_positions_cons, ih _ hi.2, Function.update_noteq hi.1]

/-- C6: for a topology proposal with no unique new atoms, `propose` returns
log probability exactly `0` and, for every mapped atom, the position copied
from the input via the atom map. -/
theorem propose_no_unique_atoms (place : (ℕ → V3) → ℕ → V3)
    (unique_new_atoms atom_proposal_order : List ℕ)
    (new_to_old_atom_map : List (ℕ × ℕ)) (rand current_positions : ℕ → V3)
    (logp_growth : ℝ)
    (hempty : unique_new_atoms = [])
    (hnd : (new_to_old_atom_map.map Prod.fst).Nodup) :
    (propose place unique_new_atoms atom_proposal_order new_to_old_atom_map rand
        current_positions logp_growth).2 = 0
    ∧
    ∀ i o, (i, o) ∈ new_to_old_atom_map →
      (propose place unique_new_atoms atom_proposal_order new_to_old_atom_map rand
          current_positions logp_growth).1 i = current_positions o := by
  rw [propose, if_pos hempty]
  exact ⟨rfl, fun i o hio => copy_positions_mem _ _ _ _ _ hnd hio⟩

/-- Witness for C6 with the two-atom map `{0 ↦ 1, 1 ↦ 0}`. -/
theorem propose_no_unique_atoms_witness :
    (propose (fun pos _ => pos 0) [] [] [(0, 1), (1, 0)] (fun _ => ⟨5, 5, 5⟩)
        (fun i => ⟨(i : ℝ), 0, 0⟩) 3).2 = 0
    ∧
    ∀ (i o : ℕ), (i, o) ∈ [(0, 1), (1, 0)] →
      (propose (fun pos _ => pos 0) [] [] [(0, 1), (1, 0)] (fun _ => ⟨5, 5, 5⟩)
          (fun i => ⟨(i : ℝ), 0, 0⟩) 3).1 i = V3.mk (o : ℝ) 0 0 :=
  propose_no_unique_atoms (fun pos _ => pos 0) [] [] [(0, 1), (1, 0)]
    (fun _ => ⟨5, 5, 5⟩) (fun i => ⟨(i : ℝ), 0, 0⟩) 3 rfl (by decide)

/-- C10: in a forward `propose` with unique new atoms, the growth loop
writes only into the slots of atoms in the proposal order, so every atom
outside the order keeps its copied value; in particular every mapped atom
not in the order still holds the input position of its image under the atom
map (the input array, being a separate function, is never written at
all). -/
theorem propose_frame (place : (ℕ → V3) → ℕ → V3)
    (unique_new_atoms atom_proposal_order : List ℕ)
    (new_to_old_atom_map : List (ℕ × ℕ)) (rand current_positions : ℕ → V3)
    (logp_growth : ℝ)
    (hne : unique_new_atoms ≠ []) :
    (∀ i, i ∉ atom_proposal_order →
      (propose place unique_new_atoms atom_proposal_order new_to_old_atom_map rand
          current_positions logp_growth).1 i =
        copy_positions new_to_old_atom_map rand current_positions i)
    ∧
    ((new_to_old_atom_map.map Prod.fst).Nodup →
      ∀ i o, (i, o) ∈ new_to_old_atom_map → i ∉ atom_proposal_order →
        (propose place unique_new_atoms atom_proposal_order new_to_old_atom_map rand
            current_positions logp_growth).1 i = current_positions o) := by
  rw [propose, if_neg hne]
  refine ⟨fun i hi => grow_positions_not_mem _ _ _ _ hi, fun hnd i o hio hi => ?_⟩
  show grow_positions place atom_proposal_order
      (copy_positions new_to_old_atom_map rand current_positions) i = current_positions o
  rw [grow_positions_not_mem _ _ _ _ hi]
  exact copy_positions_mem _ _ _ _ _ hnd hio

/-- Witness for C10: one unique atom 2 placed by the order `[2]`; mapped
atom 0 keeps the copied input position. -/
theorem propose_frame_witness :
    (∀ i, i ∉ [2] →
      (propose (fun _ _ => ⟨9, 9, 9⟩) [2] [2] [(0, 1)] (fun _ => ⟨5, 5, 5⟩)
          (fun i => ⟨(i : ℝ), 0, 0⟩) 3).1 i =
        copy_positions [(0, 1)] (fun _ => ⟨5, 5, 5⟩) (fun i => ⟨(i : ℝ), 0, 0⟩) i)
    ∧
    ((([(0, 1)] : List (ℕ × ℕ)).map Prod.fst).Nodup →
      ∀ (i o : ℕ), (i, o) ∈ [(0, 1)] → i ∉ [2] →
        (propose (fun _ _ => ⟨9, 9, 9⟩) [2] [2] [(0, 1)] (fun _ => ⟨5, 5, 5⟩)
            (fun i => ⟨(i : ℝ), 0, 0⟩) 3).1 i = V3.mk (o : ℝ) 0 0) :=
  propose_frame (fun _ _ => ⟨9, 9, 9⟩) [2] [2] [(0, 1)] (fun _ => ⟨5, 5, 5⟩)
    (fun i => ⟨(i : ℝ), 0, 0⟩) 3 (by decide)

/-- C9 (code evaluated at the failing random draw): `np.random.random`
draws each coordinate from the half-open interval `[0, 1)`, which contains
`0.0`; on the draw that returns `0.0` for every coordinate of slot 1 (a
legal output, as the conjunct about `Set.Ico` records), the unmapped slot 1
of the fresh array holds the exact zero vector, contradicting the claim
(and the source comment "Create random non-zero positions for new atoms",
geometry.py:436) that a new-atom slot is never exactly zero. -/
theorem copy_positions_zero_draw_possible :
    (0 : ℝ) ∈ Set.Ico (0 : ℝ) 1
    ∧ copy_positions [(0, 0)] (fun _ => ⟨0, 0, 0⟩) (fun _ => ⟨1, 1, 1⟩) 1 = V3.mk 0 0 0 := by
  constructor
  · exact ⟨le_refl 0, by norm_num⟩
  · rw [copy_positions_not_mem _ _ _ _ (by decide)]

/-! ## Bond stage of `_logp_propose`

Lines 288-302 of geometry.py decide each atom's bond length `r` and its log
probability contribution `logp_r`: with a harmonic bond term present `r` is
sampled (forward) or read from the coordinates (reverse) and scored with the
normalized Gaussian density; with no bond term, the forward direction falls
back to a rigid constraint (`_get_bond_constraint`, geometry.py:474-501) and
raises `ValueError` when none exists, while the reverse direction sets
`logp_r = 0.0` without consulting the constraints at all. -/

/-- The direction arguments accepted by `_logp_propose`. -/
inductive Direction where
  | forward
  | reverse
deriving DecidableEq, Repr

/-- A parmed harmonic bond type: spring constant `k` and equilibrium length
`req` (units stripped). -/
structure HarmonicBond where
  k : ℝ
  req : ℝ

/-- `FFAllAngleGeometryEngine._bond_logq` (geometry.py:643-661):
`-beta*0.5*k_eq*(r-r0)**2`. -/
def bond_logq (r : ℝ) (bond : HarmonicBond) (beta : ℝ) : ℝ :=
  -beta * 0.5 * bond.k * (r - bond.req) ^ 2

/-- The `ValueError` message of geometry.py:300. -/
def noBondMsg : String :=
  "Structure contains a topological bond with no constraint or bond information."

/-- The bond stage of `_logp_propose` (geometry.py:288-302), for one atom:
`bond` is the result of `_get_relevant_bond`, `constraint` the result of
`_get_bond_constraint`, `r_reverse` the bond length read from the old
coordinates by `_cartesian_to_internal` (reverse direction), `r_sampled`
the draw of `_propose_bond` (forward direction).  Returns `(r, logp_r)`. -/
def bond_stage (direction : Direction) (bond : Option HarmonicBond) (constraint : Option ℝ)
    (beta r_reverse r_sampled : ℝ) : Except GeomError (ℝ × ℝ) :=
  match bond with
  | some b =>
      let r := match direction with
        | .forward => r_sampled
        | .reverse => r_reverse
      let sigma_r := Real.sqrt (1 / (beta * b.k))
      let logZ_r := Real.log (Real.sqrt (2 * π) * sigma_r)
      .ok (r, bond_logq r b beta - logZ_r)
  | none =>
      match direction with
      | .forward =>
          match constraint with
          | none => .error (.valueError noBondMsg)
          | some c => .ok (c, 0)
      | .reverse => .ok (r_reverse, 0)

/-- Counterexample to C7: in the reverse direction with no harmonic bond
term, the code never consults the constraints: with a constraint of length 2
defined it still returns the measured `r = 1/2` (not the constraint length),
and with neither bond nor constraint it returns `(1/2, 0)` instead of
raising the fatal configuration error the claim asserts for both
directions. -/
theorem bond_stage_reverse_counterexample :
    bond_stage .reverse none (some 2) 1 (1 / 2) (7 / 10) = .ok (1 / 2, 0)
    ∧ bond_stage .reverse none none 1 (1 / 2) (7 / 10) = .ok (1 / 2, 0) :=
  ⟨rfl, rfl⟩

/-- C7 (amended): in the forward direction, when no harmonic bond term
exists, a defined rigid constraint gives `r` exactly the constraint length
with log-probability contribution `0`, and with neither bond nor constraint
the call fails with the fatal `ValueError`; in the reverse direction no
error is raised: the bond length stays the value read from the existing
coordinates and the log-probability contribution is `0` whether or not a
constraint exists. -/
theorem bond_stage_fallback (beta r_reverse r_sampled c : ℝ) :
    bond_stage .forward none (some c) beta r_reverse r_sampled = .ok (c, 0)
    ∧ bond_stage .forward none none beta r_reverse r_sampled = .error (.valueError noBondMsg)
    ∧ ∀ copt : Option ℝ,
        bond_stage .reverse none copt beta r_reverse r_sampled = .ok (r_reverse, 0) :=
  ⟨rfl, rfl, fun _ => rfl⟩

/-- Witness for the amended C7 at concrete values. -/
theorem bond_stage_fallback_witness :
    bond_stage .forward none (some 3) 1 (1 / 2) (7 / 10) = .ok (3, 0)
    ∧ bond_stage .forward none none 1 (1 / 2) (7 / 10) = .error (.valueError noBondMsg)
    ∧ ∀ copt : Option ℝ, bond_stage .reverse none copt 1 (1 / 2) (7 / 10) = .ok (1 / 2, 0) :=
  bond_stage_fallback 1 (1 / 2) (7 / 10) 3

end
